import Mathlib

/-!
Verification of the secure storage engine of the Secure_Storage_prototype
repository.  The relevant Python classes are shallowly embedded as pure Lean
functions over explicit state values:

* `MegaWrapper`  — the object store (`src/mega_wrapper.py`), namespaced per
  user, encrypting content with a process-lifetime key;
* `DatabaseManager` — the metadata store and audit log (`src/database.py`),
  in its in-memory fallback branch (the `use_memory` path), which is the
  deterministic executable branch of the source;
* `SecureFileManager` — the storage orchestrator (`src/file_manager.py`).

Python dictionaries are modelled as association lists with dict semantics
(assignment replaces the entry for an existing key in place, otherwise
appends).  Bytes are modelled as `List Nat`.  The external Fernet cipher is
modelled as an abstract invertible symmetric cipher keyed by a `Nat`.
Timestamps are modelled by a logical clock (`Nat`); fields of the source
records that no theorem mentions (string timestamps, `tags`, `last_accessed`,
the `encrypted` flag, IP addresses) are elided.
-/

namespace SecureStorage

/-- Raw byte strings, one `Nat` per byte. -/
abbrev Bytes := List Nat

/-- Lookup in an association list modelling a Python dict (first match). -/
def lookupA {α : Type} : List (String × α) → String → Option α
  | [], _ => none
  | (k', v) :: rest, k => if k' = k then some v else lookupA rest k

/-- Dict assignment `d[k] = v`: replace the entry for `k` in place if present,
otherwise append at the end (insertion order semantics of Python dicts). -/
def insertA {α : Type} : List (String × α) → String → α → List (String × α)
  | [], k, v => [(k, v)]
  | (k', v') :: rest, k, v =>
    if k' = k then (k, v) :: rest else (k', v') :: insertA rest k v

/-- Dict deletion `del d[k]` (removes every entry with key `k`; under the
no-duplicate-keys reality of a dict this is exactly the one entry). -/
def eraseA {α : Type} : List (String × α) → String → List (String × α)
  | [], _ => []
  | (k', v) :: rest, k =>
    if k' = k then eraseA rest k else (k', v) :: eraseA rest k

/-- In-place mutation of the entry at key `k` (`d[k].field = ...`); a no-op
when the key is absent. -/
def modifyA {α : Type} : List (String × α) → String → (α → α) → List (String × α)
  | [], _, _ => []
  | (k', v) :: rest, k, f =>
    if k' = k then (k', f v) :: modifyA rest k f else (k', v) :: modifyA rest k f

theorem lookupA_insertA_self {α : Type} (l : List (String × α)) (k : String) (v : α) :
    lookupA (insertA l k v) k = some v := by
  induction l with
  | nil => simp [insertA, lookupA]
  | cons p rest ih =>
    by_cases h : p.1 = k
    · simp [insertA, lookupA, h]
    · simp [insertA, lookupA, h, ih]

theorem lookupA_insertA_ne {α : Type} (l : List (String × α)) (k k' : String) (v : α)
    (h : k ≠ k') : lookupA (insertA l k v) k' = lookupA l k' := by
  induction l with
  | nil => simp [insertA, lookupA, h]
  | cons p rest ih =>
    obtain ⟨pk, pv⟩ := p
    by_cases hp : pk = k
    · subst hp
      simp [insertA, lookupA, h, Ne.symm h]
    · by_cases hp' : pk = k'
      · subst hp'
        simp [insertA, lookupA, hp]
      · simp [insertA, lookupA, hp, hp', ih]

theorem lookupA_modifyA_self {α : Type} (l : List (String × α)) (k : String) (f : α → α) :
    lookupA (modifyA l k f) k = (lookupA l k).map f := by
  induction l with
  | nil => simp [modifyA, lookupA]
  | cons p rest ih =>
    by_cases h : p.1 = k
    · simp [modifyA, lookupA, h]
    · simp [modifyA, lookupA, h, ih]

theorem lookupA_modifyA_ne {α : Type} (l : List (String × α)) (k k' : String) (f : α → α)
    (h : k ≠ k') : lookupA (modifyA l k f) k' = lookupA l k' := by
  induction l with
  | nil => simp [modifyA, lookupA]
  | cons p rest ih =>
    obtain ⟨pk, pv⟩ := p
    by_cases hp : pk = k
    · subst hp
      simp [modifyA, lookupA, h, Ne.symm h, ih]
    · by_cases hp' : pk = k'
      · subst hp'
        simp [modifyA, lookupA, hp]
      · simp [modifyA, lookupA, hp, hp', ih]

theorem lookupA_eraseA_self {α : Type} (l : List (String × α)) (k : String) :
    lookupA (eraseA l k) k = none := by
  induction l with
  | nil => simp [eraseA, lookupA]
  | cons p rest ih =>
    by_cases h : p.1 = k
    · simp [eraseA, h, ih]
    · simp [eraseA, lookupA, h, ih]

theorem lookupA_eraseA_of_none {α : Type} (l : List (String × α)) (k k' : String)
    (h : lookupA l k' = none) : lookupA (eraseA l k) k' = none := by
  induction l with
  | nil => simp [eraseA, lookupA]
  | cons p rest ih =>
    obtain ⟨pk, pv⟩ := p
    by_cases hpk : pk = k'
    · subst hpk
      simp [lookupA] at h
    · simp [lookupA, hpk] at h
      by_cases hp : pk = k
      · simp [eraseA, hp, ih h]
      · simp [eraseA, lookupA, hp, hpk, ih h]

/-- With no duplicate keys, a member of the list is what lookup finds. -/
theorem lookupA_of_mem {α : Type} (l : List (String × α)) (k : String) (v : α)
    (hnd : (l.map Prod.fst).Nodup) (hmem : (k, v) ∈ l) : lookupA l k = some v := by
  induction l with
  | nil => cases hmem
  | cons p rest ih =>
    simp only [List.map_cons, List.nodup_cons] at hnd
    rcases List.mem_cons.mp hmem with h | h
    · subst h; simp [lookupA]
    · have hk : p.1 ≠ k := by
        intro hcontra
        exact hnd.1 (hcontra ▸ (List.mem_map.mpr ⟨(k, v), h, rfl⟩))
      simp [lookupA, hk, ih hnd.2 h]

/-! ### Cipher model

Model of the external Fernet symmetric cipher used by `MegaWrapper`
(`cryptography.fernet.Fernet`): an invertible keyed transformation of the
byte string.  The only property of Fernet the source relies on is that
decryption with the generating key restores the plaintext. -/

/-- Fernet encryption model (`self.cipher.encrypt`). -/
def fernetEncrypt (key : Nat) (data : Bytes) : Bytes :=
  data.map (fun b => b + key)

/-- Fernet decryption model (`self.cipher.decrypt`). -/
def fernetDecrypt (key : Nat) (data : Bytes) : Bytes :=
  data.map (fun b => b - key)

theorem fernetDecrypt_fernetEncrypt (key : Nat) (data : Bytes) :
    fernetDecrypt key (fernetEncrypt key data) = data := by
  induction data with
  | nil => rfl
  | cons b rest ih =>
    simp [fernetEncrypt, fernetDecrypt] at ih ⊢
    exact ih

/-! ### Object store: `MegaWrapper` (`src/mega_wrapper.py`) -/

/-- Entry of `MegaWrapper.files` (`self.files[file_id]`): the per-blob
metadata the wrapper keeps.  The string timestamps (`upload_time`,
`last_accessed`) and the constant `encrypted: True` flag are elided. -/
structure MegaFileInfo where
  user_id : Option String
  filename : String
  size : Nat
  folder_id : Option String
  file_path : String
  access_count : Nat
deriving DecidableEq, Repr

/-- Entry of `MegaWrapper.folders` (`self.folders[folder_id]`); `created_at`
is elided. -/
structure FolderInfo where
  name : String
  path : String
  user_id : Option String
  files : List String
deriving DecidableEq, Repr

/-- State of a `MegaWrapper` instance: the in-process dicts `folders`,
`user_folders`, `files`, the on-disk blobs under `./mega_storage`
(modelled as a map from file path to the stored bytes), the
process-lifetime Fernet key, and a counter determinizing `uuid.uuid4()`
(whose contract is freshness). -/
structure MegaState where
  folders : List (String × FolderInfo)
  user_folders : List (String × String)
  files : List (String × MegaFileInfo)
  storage : List (String × Bytes)
  key : Nat
  fresh : Nat
deriving DecidableEq, Repr

namespace MegaWrapper

/-- `MegaWrapper.create_user_folder` (`src/mega_wrapper.py:40-65`): return
the existing folder whose name is `heal_ai_user_<user_id>`, else create a
fresh one.  Returns the folder id together with the updated state. -/
def create_user_folder (st : MegaState) (user_id : String) : String × MegaState :=
  let folder_name := "heal_ai_user_" ++ user_id
  match st.folders.find? (fun p => p.2.name == folder_name) with
  | some p => (p.1, st)
  | none =>
    let folder_id := "folder_" ++ toString st.fresh
    let folder_path := "./mega_storage/" ++ folder_name
    let info : FolderInfo :=
      { name := folder_name, path := folder_path, user_id := some user_id, files := [] }
    (folder_id,
      { st with
          folders := insertA st.folders folder_id info
          user_folders := insertA st.user_folders user_id folder_id
          fresh := st.fresh + 1 })

/-- `MegaWrapper.upload` (`src/mega_wrapper.py:102-171`), for content already
read into bytes (the file-like-object and raw-bytes branches both reduce to
this; the orchestrator always supplies a `dest_filename`).  Raised
exceptions are modelled as `Except.error` with the exception message. -/
def upload (st : MegaState) (file_data : Bytes) (dest : Option String)
    (dest_filename : String) : Except String (String × MegaState) :=
  let filename := if dest_filename = "" then "uploaded_file" else dest_filename
  if file_data.length = 0 then
    .error "File data is empty"
  else
    let file_id := "file_" ++ toString st.fresh
    let user_id : Option String :=
      match dest with
      | some d =>
        match lookupA st.folders d with
        | some f => f.user_id
        | none => none
      | none => none
    let encrypted_data := fernetEncrypt st.key file_data
    let (file_path, folders') :=
      match dest with
      | some d =>
        match lookupA st.folders d with
        | some folder_info =>
          (folder_info.path ++ "/" ++ file_id ++ "_" ++ filename,
           modifyA st.folders d (fun f => { f with files := f.files ++ [file_id] }))
        | none => ("./mega_storage/" ++ file_id ++ "_" ++ filename, st.folders)
      | none => ("./mega_storage/" ++ file_id ++ "_" ++ filename, st.folders)
    let info : MegaFileInfo :=
      { user_id := user_id, filename := filename, size := file_data.length,
        folder_id := dest, file_path := file_path, access_count := 0 }
    .ok (file_id,
      { st with
          folders := folders'
          files := insertA st.files file_id info
          storage := insertA st.storage file_path encrypted_data
          fresh := st.fresh + 1 })

/-- `MegaWrapper.check_file_in_user_folder` (`src/mega_wrapper.py:174-188`). -/
def check_file_in_user_folder (st : MegaState) (file_id : String)
    (requesting_user_id : String) : Bool :=
  match lookupA st.files file_id with
  | none => false
  | some info => info.user_id = some requesting_user_id

/-- `MegaWrapper.download` (`src/mega_wrapper.py:190-224`), with the unused
`dest_path` argument elided.  The `if requesting_user_id and not
self.check_file_in_user_folder(...)` guard skips the ownership check when
`requesting_user_id` is `None` (modelled as `none`) or falsy (the empty
string).  In this model decryption of a stored blob always succeeds, so the
`"File decryption failed"` branch of the source is unreachable; the file
read is the only remaining failure. -/
def download (st : MegaState) (file_id : String) (requesting_user_id : Option String) :
    Except String (Bytes × MegaState) :=
  match lookupA st.files file_id with
  | none => .error ("File " ++ file_id ++ " not found")
  | some info =>
    if (match requesting_user_id with
        | some u => u != "" && !(check_file_in_user_folder st file_id u)
        | none => false) then
      .error "Access denied - File not in user's folder"
    else
      match lookupA st.storage info.file_path with
      | none => .error ("No such file or directory: " ++ info.file_path)
      | some encrypted_data =>
        let decrypted_data := fernetDecrypt st.key encrypted_data
        .ok (decrypted_data,
          { st with
              files := modifyA st.files file_id
                (fun i => { i with access_count := i.access_count + 1 }) })

/-- One step of the folder branch of `MegaWrapper.delete`: the recursive
`self.delete(file_id)` on a file id contained in the folder, which always
takes the file branch. -/
def deleteFileEntry (st : MegaState) (fid : String) : MegaState :=
  match lookupA st.files fid with
  | some fi => { st with storage := eraseA st.storage fi.file_path,
                         files := eraseA st.files fid }
  | none => st

/-- `MegaWrapper.delete` (`src/mega_wrapper.py:226-249`): for a file id,
physically remove the blob from storage and drop the wrapper metadata; for
a folder id, first delete the folder's files, then the folder itself
(directory removal has no counterpart in the flat storage map).  Always
returns `True` in the source, so only the state is returned here. -/
def delete (st : MegaState) (item_id : String) : MegaState :=
  match lookupA st.files item_id with
  | some file_info =>
    { st with storage := eraseA st.storage file_info.file_path,
              files := eraseA st.files item_id }
  | none =>
    match lookupA st.folders item_id with
    | some folder_info =>
      let st₁ := folder_info.files.foldl deleteFileEntry st
      { st₁ with folders := eraseA st₁.folders item_id }
    | none => st

/-- `MegaWrapper.get_user_files` (`src/mega_wrapper.py:277-289`), returning
the full info entries rather than the projected dicts. -/
def get_user_files (st : MegaState) (user_id : String) : List (String × MegaFileInfo) :=
  st.files.filter (fun p => p.2.user_id == some user_id)

end MegaWrapper

/-! ### Metadata store and audit log: `DatabaseManager` (`src/database.py`),
in-memory fallback branch (`use_memory`). -/

/-- Document stored by `DatabaseManager.store_file_metadata`
(`src/database.py:89-114`); `upload_time` is a logical clock value and the
empty `tags` list is elided. -/
structure FileRecord where
  file_id : String
  user_id : String
  filename : String
  file_size : Nat
  file_type : String
  mega_file_id : String
  upload_time : Nat
  is_active : Bool
  access_count : Nat
deriving DecidableEq, Repr

/-- Document appended by `DatabaseManager.log_activity`
(`src/database.py:146-165`); the `ip_address` (always `None` in the
orchestrator's calls) and `timestamp` fields are elided, `details` keeps
the key/value pairs of the details dict. -/
structure AuditEntry where
  user_id : String
  action : String
  file_id : Option String
  details : Option (List (String × String))
deriving DecidableEq, Repr

/-- In-memory state of `DatabaseManager`: `memory_files` and
`memory_audit_logs` (users and sessions play no part in the storage
engine). -/
structure DbState where
  memory_files : List (String × FileRecord)
  memory_audit_logs : List AuditEntry
deriving DecidableEq, Repr

namespace DatabaseManager

/-- `DatabaseManager.store_file_metadata` (`src/database.py:89-114`),
memory branch: `self.memory_files[file_id] = file_data`.  `now` is the
logical clock standing for `datetime.utcnow()`. -/
def store_file_metadata (db : DbState) (file_id user_id filename : String)
    (file_size : Nat) (file_type mega_file_id : String) (now : Nat) : DbState :=
  { db with
      memory_files := insertA db.memory_files file_id
        { file_id := file_id, user_id := user_id, filename := filename,
          file_size := file_size, file_type := file_type,
          mega_file_id := mega_file_id, upload_time := now,
          is_active := true, access_count := 0 } }

/-- `DatabaseManager.get_file_metadata` (`src/database.py:116-125`), memory
branch: `self.memory_files.get(file_id)`.  Note this branch, unlike the
Mongo branch, does not filter on `is_active`. -/
def get_file_metadata (db : DbState) (file_id : String) : Option FileRecord :=
  lookupA db.memory_files file_id

/-- Stable insertion of a record into a list sorted by `upload_time`
descending: the record goes after every entry with an equal or later
`upload_time`, matching the stability of Python's `list.sort`. -/
def insertByUploadTimeDesc (a : FileRecord) : List FileRecord → List FileRecord
  | [] => [a]
  | b :: bs =>
    if b.upload_time < a.upload_time then a :: b :: bs
    else b :: insertByUploadTimeDesc a bs

/-- `user_files.sort(key=lambda x: x.get('upload_time', ...), reverse=True)`
(`src/database.py:136`): stable sort, newest first. -/
def sortByUploadTimeDesc (l : List FileRecord) : List FileRecord :=
  l.foldl (fun acc r => insertByUploadTimeDesc r acc) []

/-- `DatabaseManager.get_user_files` (`src/database.py:127-144`), memory
branch: filter by owner and `is_active`, sort by `upload_time` newest
first, truncate to `limit`. -/
def get_user_files (db : DbState) (user_id : String) (limit : Nat) : List FileRecord :=
  let user_files :=
    (db.memory_files.filter
      (fun p => p.2.user_id == user_id && p.2.is_active)).map Prod.snd
  (sortByUploadTimeDesc user_files).take limit

theorem mem_of_mem_insertByUploadTimeDesc {a r : FileRecord} {l : List FileRecord}
    (h : r ∈ insertByUploadTimeDesc a l) : r = a ∨ r ∈ l := by
  induction l with
  | nil => simpa [insertByUploadTimeDesc] using h
  | cons b bs ih =>
    unfold insertByUploadTimeDesc at h
    by_cases hlt : b.upload_time < a.upload_time
    · simp [hlt] at h
      rcases h with h | h | h
      · exact Or.inl h
      · exact Or.inr (by simp [h])
      · exact Or.inr (by simp [h])
    · simp [hlt] at h
      rcases h with h | h
      · exact Or.inr (by simp [h])
      · rcases ih h with h' | h'
        · exact Or.inl h'
        · exact Or.inr (List.mem_cons_of_mem b h')

theorem mem_of_mem_sortByUploadTimeDesc {r : FileRecord} {l : List FileRecord}
    (h : r ∈ sortByUploadTimeDesc l) : r ∈ l := by
  have haux : ∀ (l : List FileRecord) (acc : List FileRecord),
      r ∈ l.foldl (fun acc r => insertByUploadTimeDesc r acc) acc →
      r ∈ acc ∨ r ∈ l := by
    intro l
    induction l with
    | nil => intro acc h; exact Or.inl h
    | cons x xs ih =>
      intro acc h
      rcases ih (insertByUploadTimeDesc x acc) h with h' | h'
      · rcases mem_of_mem_insertByUploadTimeDesc h' with h'' | h''
        · exact Or.inr (by simp [h''])
        · exact Or.inl h''
      · exact Or.inr (List.mem_cons_of_mem x h')
  rcases haux l [] h with h' | h'
  · cases h'
  · exact h'

/-- `DatabaseManager.log_activity` (`src/database.py:146-165`), memory
branch: append the entry to `memory_audit_logs`. -/
def log_activity (db : DbState) (user_id action : String) (file_id : Option String)
    (details : Option (List (String × String))) : DbState :=
  { db with
      memory_audit_logs := db.memory_audit_logs ++
        [{ user_id := user_id, action := action, file_id := file_id,
           details := details }] }

/-- `DatabaseManager.update_file_access_count` (`src/database.py:167-179`),
memory branch: increment `access_count` when the id is present, no-op
otherwise. -/
def update_file_access_count (db : DbState) (file_id : String) : DbState :=
  { db with
      memory_files := modifyA db.memory_files file_id
        (fun r => { r with access_count := r.access_count + 1 }) }

end DatabaseManager

/-! ### Configuration (`src/config.py`) and the storage orchestrator
`SecureFileManager` (`src/file_manager.py`). -/

/-- The two configuration values the validation rules read
(`src/config.py:19-20`), with their source defaults. -/
structure Config where
  MAX_FILE_SIZE_MB : Nat := 50
  ALLOWED_EXTENSIONS : List String :=
    ["pdf", "doc", "docx", "txt", "jpg", "png", "jpeg", "csv", "xlsx"]
deriving DecidableEq, Repr

/-- An uploaded file as the orchestrator sees it: a filename and the byte
content (the seek/tell/read protocol of the source reduces to these two). -/
structure UploadFile where
  filename : String
  content : Bytes
deriving DecidableEq, Repr

/-- State of a `SecureFileManager`: the database state, the mega wrapper
state, a counter determinizing `uuid.uuid4()` for file ids, and a logical
clock for `datetime.utcnow()`. -/
structure FMState where
  db : DbState
  mega : MegaState
  fresh : Nat
  clock : Nat
deriving DecidableEq, Repr

/-- Summary dict built by `SecureFileManager.get_user_files_list`
(`src/file_manager.py:210-250`); `upload_time` keeps the logical clock
value. -/
structure FileSummary where
  file_id : String
  filename : String
  file_size : Nat
  file_type : String
  upload_time : Nat
  access_count : Nat
deriving DecidableEq, Repr

namespace SecureFileManager

/-- `file.filename.rsplit('.', 1)[1].lower() if '.' in file.filename else ''`
(`src/file_manager.py:29`): the lowercased suffix after the last dot, empty
when the filename has no dot.  Implemented over the character list of the
string. -/
def extensionOf (filename : String) : String :=
  if filename.data.contains '.' then
    String.mk
      (((filename.data.reverse.takeWhile (fun c => c ≠ '.')).reverse).map Char.toLower)
  else ""

/-- `SecureFileManager.validate_file` (`src/file_manager.py:16-49`).  On
success returns the `(size, extension)` the source puts into the result
dict; on failure the validation error message.  The `not file`, missing
`filename` attribute and `filename == ''` checks collapse to the `none`
case and the empty-filename test. -/
def validate_file (cfg : Config) (file : Option UploadFile) : Except String (Nat × String) :=
  match file with
  | none => .error "No file provided"
  | some f =>
    if f.filename = "" then .error "No file selected"
    else
      let file_ext := extensionOf f.filename
      if ¬ (file_ext ∈ cfg.ALLOWED_EXTENSIONS) then
        .error ("File type not allowed. Allowed: " ++
          String.intercalate ", " cfg.ALLOWED_EXTENSIONS)
      else
        let file_size := f.content.length
        if file_size = 0 then .error "File is empty"
        else if file_size > cfg.MAX_FILE_SIZE_MB * 1024 * 1024 then
          .error ("File too large. Maximum size: " ++
            toString cfg.MAX_FILE_SIZE_MB ++ "MB")
        else .ok (file_size, file_ext)

/-- `SecureFileManager.upload_file` (`src/file_manager.py:52-118`).
`store_ok` models whether `db.store_file_metadata` succeeds: the in-memory
branch always succeeds, but the Mongo `insert_one` backend can raise, in
which case the source's `store_file_metadata` returns `False`.  On success
the caller-visible result is the generated `file_id`; errors carry the
`(message, http_status)` pair of the source's returns. -/
def upload_file (cfg : Config) (fm : FMState) (file : Option UploadFile)
    (user_id : String) (store_ok : Bool) : Except (String × Nat) String × FMState :=
  match validate_file cfg file with
  | .error e => (.error (e, 400), fm)
  | .ok v =>
    match file with
    | none => (.error ("No file provided", 400), fm)
    | some f =>
      let file_id := toString fm.fresh
      let (user_folder, mega₁) := MegaWrapper.create_user_folder fm.mega user_id
      match MegaWrapper.upload mega₁ f.content (some user_folder)
          (file_id ++ "_" ++ f.filename) with
      | .error e =>
        (.error ("Upload failed: " ++ e, 500),
         { fm with mega := mega₁, fresh := fm.fresh + 1 })
      | .ok (mega_file_id, mega₂) =>
        if store_ok then
          let db₁ := DatabaseManager.store_file_metadata fm.db file_id user_id
            f.filename v.1 v.2 mega_file_id fm.clock
          let db₂ := DatabaseManager.log_activity db₁ user_id "file_upload"
            (some file_id) (some [("filename", f.filename)])
          (.ok file_id,
           { db := db₂, mega := mega₂, fresh := fm.fresh + 1, clock := fm.clock + 1 })
        else
          (.error ("Failed to store file metadata", 500),
           { fm with mega := mega₂, fresh := fm.fresh + 1 })

/-- `SecureFileManager.retrieve_file` (`src/file_manager.py:121-166`).  A
successful retrieval returns `(file_data, filename, file_type)`; errors
carry the `(message, http_status)` pair.  An exception escaping
`m.download` is caught by the source's outer handler and turned into the
500 response; no state mutation precedes such an exception. -/
def retrieve_file (fm : FMState) (file_id user_id : String) :
    Except (String × Nat) (Bytes × String × String) × FMState :=
  match DatabaseManager.get_file_metadata fm.db file_id with
  | none => (.error ("File not found", 404), fm)
  | some file_info =>
    if MegaWrapper.check_file_in_user_folder fm.mega file_info.mega_file_id user_id then
      match MegaWrapper.download fm.mega file_info.mega_file_id (some user_id) with
      | .error e => (.error ("Retrieval failed: " ++ e, 500), fm)
      | .ok (file_data, mega') =>
        let db₁ := DatabaseManager.update_file_access_count fm.db file_id
        let db₂ := DatabaseManager.log_activity db₁ user_id "file_download"
          (some file_id) (some [("filename", file_info.filename)])
        (.ok (file_data, file_info.filename, file_info.file_type),
         { fm with db := db₂, mega := mega' })
    else
      let db₁ := DatabaseManager.log_activity fm.db user_id
        "unauthorized_access_attempt" (some file_id) none
      (.error ("Access denied - File not in user folder", 403), { fm with db := db₁ })

/-- `SecureFileManager.delete_file` (`src/file_manager.py:168-208`): hard
delete of the blob via `MegaWrapper.delete`, soft delete of the metadata
record (`is_active = False`, memory branch), audit entry on success.  A
denied delete returns the generic 403 error with no state change and no
audit entry. -/
def delete_file (fm : FMState) (file_id user_id : String) :
    Except (String × Nat) Unit × FMState :=
  match DatabaseManager.get_file_metadata fm.db file_id with
  | none => (.error ("File not found", 404), fm)
  | some file_info =>
    if file_info.user_id = user_id then
      let mega' := MegaWrapper.delete fm.mega file_info.mega_file_id
      let db₁ : DbState :=
        { fm.db with
            memory_files := modifyA fm.db.memory_files file_id
              (fun r => { r with is_active := false }) }
      let db₂ := DatabaseManager.log_activity db₁ user_id "file_delete"
        (some file_id) (some [("filename", file_info.filename)])
      (.ok (), { fm with db := db₂, mega := mega' })
    else
      (.error ("Access denied", 403), fm)

/-- `SecureFileManager.get_user_files_list` (`src/file_manager.py:210-250`):
project the records returned by `db.get_user_files` (default limit 50)
into summary dicts. -/
def get_user_files_list (fm : FMState) (user_id : String) : List FileSummary :=
  (DatabaseManager.get_user_files fm.db user_id 50).map
    (fun r =>
      { file_id := r.file_id, filename := r.filename, file_size := r.file_size,
        file_type := r.file_type, upload_time := r.upload_time,
        access_count := r.access_count })

end SecureFileManager

/-! ### Concrete states used by witnesses and counterexamples

A reachable configuration: user `alice` has uploaded a 3-byte `report.txt`
(stored under metadata id `F` and object-store id `fileA`), matching the
state produced by running the upload workflow from an empty deployment. -/

/-- Path of alice's encrypted blob in the reference backend layout. -/
def pathA : String := "./mega_storage/heal_ai_user_alice/fileA_0_report.txt"

/-- Object-store entry for alice's uploaded blob. -/
def infoA : MegaFileInfo :=
  { user_id := some "alice", filename := "0_report.txt", size := 3,
    folder_id := some "folderA", file_path := pathA, access_count := 0 }

/-- Metadata record for alice's file `F`. -/
def recF : FileRecord :=
  { file_id := "F", user_id := "alice", filename := "report.txt",
    file_size := 3, file_type := "txt", mega_file_id := "fileA",
    upload_time := 0, is_active := true, access_count := 0 }

/-- Object-store state holding alice's blob, encrypted under key 7. -/
def mega0 : MegaState :=
  { folders := [("folderA",
      { name := "heal_ai_user_alice", path := "./mega_storage/heal_ai_user_alice",
        user_id := some "alice", files := ["fileA"] })]
    user_folders := [("alice", "folderA")]
    files := [("fileA", infoA)]
    storage := [(pathA, fernetEncrypt 7 [37, 80, 68])]
    key := 7
    fresh := 2 }

/-- Metadata-store state holding the record for `F`, empty audit log. -/
def db0 : DbState := { memory_files := [("F", recF)], memory_audit_logs := [] }

/-- Orchestrator state combining `db0` and `mega0`. -/
def fm0 : FMState := { db := db0, mega := mega0, fresh := 1, clock := 1 }

/-- Empty deployment: no files, no folders, no audit entries. -/
def fmInit : FMState :=
  { db := { memory_files := [], memory_audit_logs := [] }
    mega := { folders := [], user_folders := [], files := [], storage := [],
              key := 5, fresh := 0 }
    fresh := 0
    clock := 0 }

/-- A valid upload input: 3 bytes (a `%PD` stub) named `report.txt`. -/
def fileA : UploadFile := { filename := "report.txt", content := [37, 80, 68] }

/-! ### Claim C1 -/

/-- C1, as stated, is false on the code: a wrong-owner retrieve of the
existing file `F` returns the 403 error `Access denied - File not in user
folder`, while a retrieve of the unknown id `missing` returns the 404
error `File not found` — different status codes and different messages,
so the two error shapes are distinguishable by the caller. -/
theorem C1_counterexample :
    (SecureFileManager.retrieve_file fm0 "F" "bob").1 =
      .error ("Access denied - File not in user folder", 403) ∧
    (SecureFileManager.retrieve_file fm0 "missing" "bob").1 =
      .error ("File not found", 404) ∧
    (SecureFileManager.retrieve_file fm0 "F" "bob").1 ≠
      (SecureFileManager.retrieve_file fm0 "missing" "bob").1 := by
  refine ⟨rfl, rfl, ?_⟩
  intro h
  rw [show (SecureFileManager.retrieve_file fm0 "F" "bob").1 =
        .error ("Access denied - File not in user folder", 403) from rfl,
      show (SecureFileManager.retrieve_file fm0 "missing" "bob").1 =
        .error ("File not found", 404) from rfl] at h
  simp at h

/-- C1 (amended): for every stored file whose object-store ownership check
denies the identity `u`, `retrieve_file` returns the 403 error
`Access denied - File not in user folder`, whereas for a `file_id` absent
from the metadata store it returns the 404 error `File not found`; the two
caller-visible error shapes are different, not the same. -/
theorem C1_amended_error_shapes_differ (fm : FMState) (fid fid' u : String)
    (info : FileRecord)
    (hmeta : DatabaseManager.get_file_metadata fm.db fid = some info)
    (hcheck : MegaWrapper.check_file_in_user_folder fm.mega info.mega_file_id u = false)
    (hmiss : DatabaseManager.get_file_metadata fm.db fid' = none) :
    (SecureFileManager.retrieve_file fm fid u).1 =
      .error ("Access denied - File not in user folder", 403) ∧
    (SecureFileManager.retrieve_file fm fid' u).1 =
      .error ("File not found", 404) ∧
    (SecureFileManager.retrieve_file fm fid u).1 ≠
      (SecureFileManager.retrieve_file fm fid' u).1 := by
  have h1 : (SecureFileManager.retrieve_file fm fid u).1 =
      .error ("Access denied - File not in user folder", 403) := by
    simp [SecureFileManager.retrieve_file, hmeta, hcheck]
  have h2 : (SecureFileManager.retrieve_file fm fid' u).1 =
      .error ("File not found", 404) := by
    simp [SecureFileManager.retrieve_file, hmiss]
  refine ⟨h1, h2, ?_⟩
  rw [h1, h2]
  simp

/-- Witness for C1 (amended) at the concrete state `fm0`: the file `F` is
owned by `alice`, the requester is `bob`, and `missing` is unknown. -/
theorem C1_amended_witness :
    (SecureFileManager.retrieve_file fm0 "F" "bob").1 =
      .error ("Access denied - File not in user folder", 403) ∧
    (SecureFileManager.retrieve_file fm0 "missing" "bob").1 =
      .error ("File not found", 404) ∧
    (SecureFileManager.retrieve_file fm0 "F" "bob").1 ≠
      (SecureFileManager.retrieve_file fm0 "missing" "bob").1 :=
  C1_amended_error_shapes_differ fm0 "F" "missing" "bob" recF rfl rfl rfl

/-! ### Claim C6 -/

/-- C6: whenever validation rejects an upload input (empty file, extension
not in the configured allow-list, size above the configured maximum, or no
file at all), `upload_file` returns exactly the validation error message
with status 400 and the entire state — object store, metadata store,
audit log, counters — is returned unchanged. -/
theorem C6_validation_failure_no_state_change (cfg : Config) (fm : FMState)
    (file : Option UploadFile) (u : String) (store_ok : Bool) (e : String)
    (h : SecureFileManager.validate_file cfg file = .error e) :
    SecureFileManager.upload_file cfg fm file u store_ok = (.error (e, 400), fm) := by
  unfold SecureFileManager.upload_file
  rw [h]

/-- Witness for C6: the empty file is rejected with the message
`File is empty` and nothing changes in `fm0`. -/
theorem C6_witness :
    SecureFileManager.validate_file {} (some { filename := "report.txt", content := [] }) =
      .error "File is empty" ∧
    SecureFileManager.upload_file {} fm0
      (some { filename := "report.txt", content := [] }) "alice" true =
      (.error ("File is empty", 400), fm0) :=
  ⟨by rfl, C6_validation_failure_no_state_change {} fm0
    (some { filename := "report.txt", content := [] }) "alice" true "File is empty" (by rfl)⟩

/-! ### Claim C9 -/

/-- C9, as stated, is false on the code: `bob`'s denied delete of `alice`'s
file `F` returns the generic 403 error and leaves the state — in
particular the audit log, which stays empty — completely unchanged: the
delete denial is not audited. -/
theorem C9_counterexample :
    SecureFileManager.delete_file fm0 "F" "bob" = (.error ("Access denied", 403), fm0) ∧
    (SecureFileManager.delete_file fm0 "F" "bob").2.db.memory_audit_logs = [] :=
  ⟨rfl, rfl⟩

/-- C9 (amended): a denied retrieve is audited — exactly one
`unauthorized_access_attempt` entry under the requesting identity is
appended — but a denied delete returns the generic 403 error with no state
change at all, so no audit entry records it. -/
theorem C9_amended_denial_audit (fm : FMState) (fid u : String) (r : FileRecord) :
    (DatabaseManager.get_file_metadata fm.db fid = some r →
      MegaWrapper.check_file_in_user_folder fm.mega r.mega_file_id u = false →
      (SecureFileManager.retrieve_file fm fid u).2.db.memory_audit_logs =
        fm.db.memory_audit_logs ++
          [{ user_id := u, action := "unauthorized_access_attempt",
             file_id := some fid, details := none }]) ∧
    (DatabaseManager.get_file_metadata fm.db fid = some r → r.user_id ≠ u →
      SecureFileManager.delete_file fm fid u = (.error ("Access denied", 403), fm)) := by
  constructor
  · intro h1 h2
    simp [SecureFileManager.retrieve_file, h1, h2, DatabaseManager.log_activity]
  · intro h1 h2
    simp [SecureFileManager.delete_file, h1, h2]

/-- Witness for C9 (amended) at `fm0`: `bob`'s denied retrieve of `F`
appends the denial entry, while `bob`'s denied delete leaves `fm0`
untouched. -/
theorem C9_amended_witness :
    (SecureFileManager.retrieve_file fm0 "F" "bob").2.db.memory_audit_logs =
      [{ user_id := "bob", action := "unauthorized_access_attempt",
         file_id := some "F", details := none }] ∧
    SecureFileManager.delete_file fm0 "F" "bob" = (.error ("Access denied", 403), fm0) :=
  ⟨(C9_amended_denial_audit fm0 "F" "bob" recF).1 rfl rfl,
   (C9_amended_denial_audit fm0 "F" "bob" recF).2 rfl (by decide)⟩

/-! ### Claim C10 -/

/-- C10: when `download` is called without a `requesting_user_id`, the
ownership check is skipped entirely: for any stored file — whoever its
tagged owner is — the decrypted content is returned, and only the
access-count bump is performed.  The check is applied only when a truthy
requesting user id is supplied. -/
theorem C10_download_without_user_skips_check (st : MegaState) (fid : String)
    (info : MegaFileInfo) (blob : Bytes)
    (hfile : lookupA st.files fid = some info)
    (hblob : lookupA st.storage info.file_path = some blob) :
    MegaWrapper.download st fid none =
      .ok (fernetDecrypt st.key blob,
        { st with
            files := modifyA st.files fid
              (fun i => { i with access_count := i.access_count + 1 }) }) := by
  simp [MegaWrapper.download, hfile, hblob]

/-- Witness for C10: downloading `alice`'s blob `fileA` from `mega0` with
no requesting user returns the decrypted plaintext despite the file being
tagged with owner `alice`. -/
theorem C10_witness :
    (MegaWrapper.download mega0 "fileA" none).toOption.map Prod.fst =
      some [37, 80, 68] := by
  rw [C10_download_without_user_skips_check mega0 "fileA" infoA
    (fernetEncrypt 7 [37, 80, 68]) rfl rfl]
  rfl

/-! ### Claim C3 -/

/-- Deleting one file entry never resurrects an absent key of the wrapper's
file dict. -/
theorem deleteFileEntry_preserves_files_none (st : MegaState) (fid id : String)
    (h : lookupA st.files id = none) :
    lookupA (MegaWrapper.deleteFileEntry st fid).files id = none := by
  unfold MegaWrapper.deleteFileEntry
  cases hf : lookupA st.files fid with
  | some fi => simpa using lookupA_eraseA_of_none st.files fid id h
  | none => simpa using h

/-- After `MegaWrapper.delete item_id`, the wrapper's file dict has no entry
for `item_id`: either the file branch erased it, or it was never a file key
and deletion only removes entries. -/
theorem lookupA_delete_files_self (st : MegaState) (item_id : String) :
    lookupA (MegaWrapper.delete st item_id).files item_id = none := by
  unfold MegaWrapper.delete
  cases h : lookupA st.files item_id with
  | some fi => simp [lookupA_eraseA_self]
  | none =>
    cases hf : lookupA st.folders item_id with
    | some folder_info =>
      simp only
      have hfold : ∀ (l : List String) (s : MegaState), lookupA s.files item_id = none →
          lookupA (l.foldl MegaWrapper.deleteFileEntry s).files item_id = none := by
        intro l
        induction l with
        | nil => intro s hs; simpa using hs
        | cons x xs ih =>
          intro s hs
          exact ih _ (deleteFileEntry_preserves_files_none s x item_id hs)
      simpa using hfold folder_info.files st h
    | none => simpa using h

/-- C3: after any successful delete of file `fid`, a retrieve of `fid` by
any identity `v` — the former owner included — returns the 403
`Access denied - File not in user folder` error: the soft-deleted metadata
record is still found (the in-memory backend does not filter on
`is_active`), but the object-store ownership check fails because the
wrapper entry is gone, so content is never returned. -/
theorem C3_delete_then_retrieve_never_content (fm fm' : FMState) (fid u : String)
    (h : SecureFileManager.delete_file fm fid u = (.ok (), fm')) (v : String) :
    (SecureFileManager.retrieve_file fm' fid v).1 =
      .error ("Access denied - File not in user folder", 403) := by
  unfold SecureFileManager.delete_file at h
  cases hmeta : DatabaseManager.get_file_metadata fm.db fid with
  | none => rw [hmeta] at h; simp at h
  | some r =>
    rw [hmeta] at h
    by_cases hown : r.user_id = u
    · simp only [hown, if_true] at h
      have hfm' : fm' =
          { fm with
              db := DatabaseManager.log_activity
                { fm.db with
                    memory_files := modifyA fm.db.memory_files fid
                      (fun s => { s with is_active := false }) }
                u "file_delete" (some fid) (some [("filename", r.filename)])
              mega := MegaWrapper.delete fm.mega r.mega_file_id } := by
        have := congrArg Prod.snd h
        simpa using this.symm
      subst hfm'
      have hmeta' : DatabaseManager.get_file_metadata
          (DatabaseManager.log_activity
            { fm.db with
                memory_files := modifyA fm.db.memory_files fid
                  (fun s => { s with is_active := false }) }
            u "file_delete" (some fid) (some [("filename", r.filename)])) fid =
          some { r with is_active := false } := by
        have hmeta2 : lookupA fm.db.memory_files fid = some r := hmeta
        have hl : lookupA (modifyA fm.db.memory_files fid
            (fun s => { s with is_active := false })) fid =
            some { r with is_active := false } := by
          rw [lookupA_modifyA_self, hmeta2]
          rfl
        exact hl
      have hcheck : MegaWrapper.check_file_in_user_folder
          (MegaWrapper.delete fm.mega r.mega_file_id)
          ({ r with is_active := false } : FileRecord).mega_file_id v = false := by
        simp [MegaWrapper.check_file_in_user_folder, lookupA_delete_files_self]
      simp [SecureFileManager.retrieve_file, hmeta', hcheck]
    · simp [hown] at h

/-- Witness for C3: after `alice` deletes her own file `F` in `fm0`, both
her and `bob`'s retrieves are denied. -/
theorem C3_witness :
    (SecureFileManager.retrieve_file (SecureFileManager.delete_file fm0 "F" "alice").2
        "F" "alice").1 =
      .error ("Access denied - File not in user folder", 403) :=
  C3_delete_then_retrieve_never_content fm0
    (SecureFileManager.delete_file fm0 "F" "alice").2 "F" "alice" rfl "alice"

/-! ### Claim C4 -/

/-- C4: a successful retrieve increments the file's metadata
`access_count` by exactly one (first conjunct), and a retrieve that fails —
not found, access denied, or a download error — leaves every metadata
record, in particular every `access_count`, unchanged (second conjunct: the
whole `memory_files` table is equal; only the audit log may grow). -/
theorem C4_access_count_increment (fm : FMState) (fid u : String) :
    (∀ d fm', SecureFileManager.retrieve_file fm fid u = (.ok d, fm') →
      ∃ r, DatabaseManager.get_file_metadata fm.db fid = some r ∧
        DatabaseManager.get_file_metadata fm'.db fid =
          some { r with access_count := r.access_count + 1 }) ∧
    (∀ e fm', SecureFileManager.retrieve_file fm fid u = (.error e, fm') →
      fm'.db.memory_files = fm.db.memory_files) := by
  cases hmeta : DatabaseManager.get_file_metadata fm.db fid with
  | none =>
    constructor
    · intro d fm' h
      simp [SecureFileManager.retrieve_file, hmeta] at h
    · intro e fm' h
      simp [SecureFileManager.retrieve_file, hmeta] at h
      rw [h.2]
  | some r =>
    by_cases hc : MegaWrapper.check_file_in_user_folder fm.mega r.mega_file_id u
    · cases hd : MegaWrapper.download fm.mega r.mega_file_id (some u) with
      | ok pr =>
        constructor
        · intro d fm' h
          simp [SecureFileManager.retrieve_file, hmeta, hc, hd] at h
          refine ⟨r, rfl, ?_⟩
          rw [← h.2]
          have hmeta2 : lookupA fm.db.memory_files fid = some r := hmeta
          have hl : lookupA (modifyA fm.db.memory_files fid
              (fun s => { s with access_count := s.access_count + 1 })) fid =
              some { r with access_count := r.access_count + 1 } := by
            rw [lookupA_modifyA_self, hmeta2]
            rfl
          exact hl
        · intro e fm' h
          simp [SecureFileManager.retrieve_file, hmeta, hc, hd] at h
      | error e' =>
        constructor
        · intro d fm' h
          simp [SecureFileManager.retrieve_file, hmeta, hc, hd] at h
        · intro e fm' h
          simp [SecureFileManager.retrieve_file, hmeta, hc, hd] at h
          rw [h.2]
    · constructor
      · intro d fm' h
        simp [SecureFileManager.retrieve_file, hmeta, hc] at h
      · intro e fm' h
        simp [SecureFileManager.retrieve_file, hmeta, hc] at h
        rw [← h.2]
        rfl

/-- Witness for C4 at `fm0`: `alice`'s successful retrieve of `F` bumps its
`access_count` from 0 to 1, while `bob`'s denied retrieve leaves the
metadata table unchanged. -/
theorem C4_witness :
    (∃ r, DatabaseManager.get_file_metadata fm0.db "F" = some r ∧
      DatabaseManager.get_file_metadata
        (SecureFileManager.retrieve_file fm0 "F" "alice").2.db "F" =
        some { r with access_count := r.access_count + 1 }) ∧
    (SecureFileManager.retrieve_file fm0 "F" "bob").2.db.memory_files =
      fm0.db.memory_files :=
  ⟨(C4_access_count_increment fm0 "F" "alice").1 ([37, 80, 68], "report.txt", "txt")
      (SecureFileManager.retrieve_file fm0 "F" "alice").2 (by rfl),
   (C4_access_count_increment fm0 "F" "bob").2
      ("Access denied - File not in user folder", 403)
      (SecureFileManager.retrieve_file fm0 "F" "bob").2 (by rfl)⟩

/-! ### Claim C8 -/

/-- C8, as stated, is false on the code: after `alice`'s successful delete
of `F` in `fm0`, the object store's backing storage — which held the
encrypted blob at `pathA` — is empty: `MegaWrapper.delete` physically
removes the blob (`os.remove`), so the blob does not survive the delete. -/
theorem C8_counterexample :
    (SecureFileManager.delete_file fm0 "F" "alice").1 = .ok () ∧
    lookupA fm0.mega.storage pathA = some (fernetEncrypt 7 [37, 80, 68]) ∧
    (SecureFileManager.delete_file fm0 "F" "alice").2.mega.storage = [] :=
  ⟨rfl, rfl, rfl⟩

/-- C8 (amended): delete is soft only on the metadata side — after a
successful delete the metadata record still exists with `is_active =
false` — but hard on the object-store side: the wrapper's entry for the
file is dropped and the encrypted blob is physically removed from the
backing storage. -/
theorem C8_amended_soft_metadata_hard_blob (fm fm' : FMState) (fid u : String)
    (r : FileRecord) (minfo : MegaFileInfo)
    (hmeta : DatabaseManager.get_file_metadata fm.db fid = some r)
    (hmega : lookupA fm.mega.files r.mega_file_id = some minfo)
    (h : SecureFileManager.delete_file fm fid u = (.ok (), fm')) :
    DatabaseManager.get_file_metadata fm'.db fid = some { r with is_active := false } ∧
    lookupA fm'.mega.files r.mega_file_id = none ∧
    lookupA fm'.mega.storage minfo.file_path = none := by
  unfold SecureFileManager.delete_file at h
  rw [hmeta] at h
  by_cases hown : r.user_id = u
  · simp only [hown, if_true] at h
    have hfm' : fm' =
        { fm with
            db := DatabaseManager.log_activity
              { fm.db with
                  memory_files := modifyA fm.db.memory_files fid
                    (fun s => { s with is_active := false }) }
              u "file_delete" (some fid) (some [("filename", r.filename)])
            mega := MegaWrapper.delete fm.mega r.mega_file_id } := by
      have := congrArg Prod.snd h
      simpa using this.symm
    subst hfm'
    refine ⟨?_, ?_, ?_⟩
    · have hmeta2 : lookupA fm.db.memory_files fid = some r := hmeta
      have hl : lookupA (modifyA fm.db.memory_files fid
          (fun s => { s with is_active := false })) fid =
          some { r with is_active := false } := by
        rw [lookupA_modifyA_self, hmeta2]
        rfl
      exact hl
    · exact lookupA_delete_files_self fm.mega r.mega_file_id
    · show lookupA (MegaWrapper.delete fm.mega r.mega_file_id).storage
        minfo.file_path = none
      unfold MegaWrapper.delete
      rw [hmega]
      exact lookupA_eraseA_self fm.mega.storage minfo.file_path
  · simp [hown] at h

/-- Witness for C8 (amended) at `fm0`: after `alice` deletes `F`, the
record survives inactive, while the wrapper entry and the stored blob are
gone. -/
theorem C8_amended_witness :
    DatabaseManager.get_file_metadata
        (SecureFileManager.delete_file fm0 "F" "alice").2.db "F" =
      some { recF with is_active := false } ∧
    lookupA (SecureFileManager.delete_file fm0 "F" "alice").2.mega.files "fileA" = none ∧
    lookupA (SecureFileManager.delete_file fm0 "F" "alice").2.mega.storage pathA = none :=
  C8_amended_soft_metadata_hard_blob fm0 (SecureFileManager.delete_file fm0 "F" "alice").2
    "F" "alice" recF infoA rfl rfl (by rfl)

/-! ### Claim C5 -/

/-- C5: every summary produced by the file-listing operation for user `u`
is the projection of a metadata record returned by the database query,
and every such record is owned by `u` and active: the listing never shows
another user's files nor soft-deleted files. -/
theorem C5_listing_isolation (fm : FMState) (u : String) (s : FileSummary)
    (hs : s ∈ SecureFileManager.get_user_files_list fm u) :
    ∃ r : FileRecord, r ∈ DatabaseManager.get_user_files fm.db u 50 ∧
      r.user_id = u ∧ r.is_active = true ∧
      s = { file_id := r.file_id, filename := r.filename, file_size := r.file_size,
            file_type := r.file_type, upload_time := r.upload_time,
            access_count := r.access_count } := by
  unfold SecureFileManager.get_user_files_list at hs
  obtain ⟨r, hr, hrs⟩ := List.mem_map.mp hs
  refine ⟨r, hr, ?_, ?_, hrs.symm⟩ <;>
  · unfold DatabaseManager.get_user_files at hr
    have hr₁ := List.mem_of_mem_take hr
    have hr₂ := DatabaseManager.mem_of_mem_sortByUploadTimeDesc hr₁
    obtain ⟨p, hp, hps⟩ := List.mem_map.mp hr₂
    have hcond := List.of_mem_filter hp
    rw [Bool.and_eq_true, beq_iff_eq] at hcond
    rw [← hps]
    first
      | exact hcond.1
      | exact hcond.2

/-- Witness for C5 at `fm0`: the single summary listed for `alice` comes
from her active record `recF`. -/
theorem C5_witness :
    ∃ r : FileRecord, r ∈ DatabaseManager.get_user_files fm0.db "alice" 50 ∧
      r.user_id = "alice" ∧ r.is_active = true ∧
      ({ file_id := "F", filename := "report.txt", file_size := 3,
         file_type := "txt", upload_time := 0, access_count := 0 } : FileSummary) =
        { file_id := r.file_id, filename := r.filename, file_size := r.file_size,
          file_type := r.file_type, upload_time := r.upload_time,
          access_count := r.access_count } :=
  C5_listing_isolation fm0 "alice"
    { file_id := "F", filename := "report.txt", file_size := 3,
      file_type := "txt", upload_time := 0, access_count := 0 }
    (by decide)

/-! ### Upload-workflow lemmas shared by claims C2 and C7 -/

/-- Well-formedness of the wrapper state used by the upload workflow: the
folder dict has no duplicate keys (a Python dict cannot), and any folder
named `heal_ai_user_<uid>` is owned by `uid` — folders with such names are
only ever created by `create_user_folder`, which tags them this way. -/
def MegaWf (st : MegaState) : Prop :=
  (st.folders.map Prod.fst).Nodup ∧
  ∀ p ∈ st.folders, ∀ uid : String,
    p.2.name = "heal_ai_user_" ++ uid → p.2.user_id = some uid

/-- `create_user_folder` hands back a folder id that resolves, in the new
state, to a folder owned by the requested user, and it leaves the file
dict, the blob storage and the key untouched. -/
theorem create_user_folder_spec (st : MegaState) (u : String) (hwf : MegaWf st)
    (uf : String) (st₁ : MegaState)
    (hcf : MegaWrapper.create_user_folder st u = (uf, st₁)) :
    ∃ folder : FolderInfo,
      lookupA st₁.folders uf = some folder ∧ folder.user_id = some u ∧
      st₁.files = st.files ∧ st₁.storage = st.storage ∧ st₁.key = st.key := by
  unfold MegaWrapper.create_user_folder at hcf
  dsimp only [] at hcf
  cases hf : st.folders.find? (fun p => p.2.name == "heal_ai_user_" ++ u) with
  | some p =>
    rw [hf] at hcf
    simp only [Prod.mk.injEq] at hcf
    obtain ⟨huf, hst⟩ := hcf
    subst huf
    subst hst
    have hmem := List.mem_of_find?_eq_some hf
    have hname : p.2.name = "heal_ai_user_" ++ u := by
      have hp := List.find?_some hf
      exact beq_iff_eq.mp hp
    have hmem' : (p.1, p.2) ∈ st.folders := by simpa using hmem
    exact ⟨p.2, lookupA_of_mem st.folders p.1 p.2 hwf.1 hmem',
      hwf.2 p hmem u hname, rfl, rfl, rfl⟩
  | none =>
    rw [hf] at hcf
    simp only [Prod.mk.injEq] at hcf
    obtain ⟨huf, hst⟩ := hcf
    subst huf
    subst hst
    exact ⟨_, lookupA_insertA_self _ _ _, rfl, rfl, rfl, rfl⟩

/-- `upload` of non-empty bytes into an existing folder succeeds, returning
the fresh wrapper file id; the new state maps that id to an entry owned by
the folder's owner whose path holds exactly the encryption of the content
under the unchanged process key. -/
theorem upload_into_folder_spec (st : MegaState) (data : Bytes) (d fn : String)
    (folder : FolderInfo) (hne : data ≠ [])
    (hfolder : lookupA st.folders d = some folder) :
    ∃ (st' : MegaState) (info : MegaFileInfo),
      MegaWrapper.upload st data (some d) fn =
        .ok ("file_" ++ toString st.fresh, st') ∧
      lookupA st'.files ("file_" ++ toString st.fresh) = some info ∧
      info.user_id = folder.user_id ∧
      lookupA st'.storage info.file_path = some (fernetEncrypt st.key data) ∧
      st'.key = st.key := by
  have hlen : ¬ data.length = 0 := by simpa using hne
  simp only [MegaWrapper.upload, hlen, if_false, hfolder]
  refine ⟨_, _, rfl, lookupA_insertA_self _ _ _, rfl, lookupA_insertA_self _ _ _, rfl⟩

/-- A successful validation implies the content is non-empty and pins down
the returned `(size, extension)` pair. -/
theorem validate_file_ok_facts (cfg : Config) (f : UploadFile) (v : Nat × String)
    (h : SecureFileManager.validate_file cfg (some f) = .ok v) :
    f.content ≠ [] ∧ v = (f.content.length, SecureFileManager.extensionOf f.filename) := by
  unfold SecureFileManager.validate_file at h
  dsimp only [] at h
  split_ifs at h with h1 h2 h3 h4
  any_goals cases h
  refine ⟨fun hc => h3 ?_, rfl⟩
  simp [hc]

/-- `download` by the owner of a stored file succeeds and returns the
decryption of the stored blob. -/
theorem download_owner_ok (st : MegaState) (fid u : String) (info : MegaFileInfo)
    (blob : Bytes) (hfile : lookupA st.files fid = some info)
    (huser : info.user_id = some u)
    (hblob : lookupA st.storage info.file_path = some blob) :
    MegaWrapper.download st fid (some u) =
      .ok (fernetDecrypt st.key blob,
        { st with
            files := modifyA st.files fid
              (fun i => { i with access_count := i.access_count + 1 }) }) := by
  have hcheck : MegaWrapper.check_file_in_user_folder st fid u = true := by
    simp [MegaWrapper.check_file_in_user_folder, hfile, huser]
  simp [MegaWrapper.download, hfile, hblob, hcheck]

/-! ### Claim C2 -/

/-- C2: for every upload input that passes validation, uploading it as user
`u` yields the file id `toString fm.fresh`, and the owner's subsequent
retrieve succeeds and returns byte-identical content (together with the
original filename and the validated extension): the
encrypt-then-store-then-decrypt round-trip through the object store is the
identity on the content. -/
theorem C2_upload_retrieve_roundtrip (cfg : Config) (fm : FMState) (f : UploadFile)
    (u : String) (v : Nat × String)
    (hval : SecureFileManager.validate_file cfg (some f) = .ok v)
    (hwf : MegaWf fm.mega) :
    ∃ fm' : FMState,
      SecureFileManager.upload_file cfg fm (some f) u true =
        (.ok (toString fm.fresh), fm') ∧
      (SecureFileManager.retrieve_file fm' (toString fm.fresh) u).1 =
        .ok (f.content, f.filename, v.2) := by
  obtain ⟨hne, hv⟩ := validate_file_ok_facts cfg f v hval
  rcases hcf : MegaWrapper.create_user_folder fm.mega u with ⟨uf, mega₁⟩
  obtain ⟨folder, hfolder, huid, hfiles, hstorage, hkey⟩ :=
    create_user_folder_spec fm.mega u hwf uf mega₁ hcf
  obtain ⟨mega₂, minfo, hup, hfl, huser, hblob, hkey'⟩ :=
    upload_into_folder_spec mega₁ f.content uf
      (toString fm.fresh ++ "_" ++ f.filename) folder hne hfolder
  refine ⟨{ db := DatabaseManager.log_activity
              (DatabaseManager.store_file_metadata fm.db (toString fm.fresh) u
                f.filename v.1 v.2 ("file_" ++ toString mega₁.fresh) fm.clock)
              u "file_upload" (some (toString fm.fresh))
              (some [("filename", f.filename)])
            mega := mega₂, fresh := fm.fresh + 1, clock := fm.clock + 1 }, ?_, ?_⟩
  · simp only [SecureFileManager.upload_file, hval, hcf, hup, if_true]
  · have hrec : DatabaseManager.get_file_metadata
        (DatabaseManager.log_activity
          (DatabaseManager.store_file_metadata fm.db (toString fm.fresh) u
            f.filename v.1 v.2 ("file_" ++ toString mega₁.fresh) fm.clock)
          u "file_upload" (some (toString fm.fresh))
          (some [("filename", f.filename)])) (toString fm.fresh) =
        some { file_id := toString fm.fresh, user_id := u, filename := f.filename,
               file_size := v.1, file_type := v.2,
               mega_file_id := "file_" ++ toString mega₁.fresh,
               upload_time := fm.clock, is_active := true, access_count := 0 } :=
      lookupA_insertA_self _ _ _
    have hcheckB : MegaWrapper.check_file_in_user_folder mega₂
        ("file_" ++ toString mega₁.fresh) u = true := by
      simp [MegaWrapper.check_file_in_user_folder, hfl, huser, huid]
    have hdl := download_owner_ok mega₂ ("file_" ++ toString mega₁.fresh) u minfo
      (fernetEncrypt mega₁.key f.content) hfl (huser.trans huid) hblob
    rw [hkey', fernetDecrypt_fernetEncrypt] at hdl
    simp only [SecureFileManager.retrieve_file, hrec, hcheckB, if_true, hdl]

/-- Witness for C2: uploading `fileA` from the empty deployment and
retrieving it as its owner returns the original three bytes. -/
theorem C2_witness :
    ∃ fm' : FMState,
      SecureFileManager.upload_file {} fmInit (some fileA) "alice" true =
        (.ok "0", fm') ∧
      (SecureFileManager.retrieve_file fm' "0" "alice").1 =
        .ok ([37, 80, 68], "report.txt", "txt") :=
  C2_upload_retrieve_roundtrip {} fmInit fileA "alice" (3, "txt") (by rfl)
    ⟨by simp [fmInit], by intro p hp; simp [fmInit] at hp⟩

/-! ### Claim C7 -/

/-- C7, as stated, is false on the code: when the metadata-store create
step fails after a successful object-store put (uploading `fileA` from the
empty deployment with a failing store), `upload_file` does report the
original failure (500, `Failed to store file metadata`), but it attempts
no compensating remove: the just-written encrypted blob is still present
in the object store's backing storage afterwards. -/
theorem C7_counterexample :
    (SecureFileManager.upload_file {} fmInit (some fileA) "alice" false).1 =
      .error ("Failed to store file metadata", 500) ∧
    (SecureFileManager.upload_file {} fmInit (some fileA) "alice" false).2.mega.storage =
      [("./mega_storage/heal_ai_user_alice/file_1_0_report.txt",
        fernetEncrypt 5 [37, 80, 68])] ∧
    lookupA
      (SecureFileManager.upload_file {} fmInit (some fileA) "alice" false).2.mega.files
      "file_1" ≠ none :=
  ⟨rfl, rfl, by
    rw [show lookupA
        (SecureFileManager.upload_file {} fmInit (some fileA) "alice" false).2.mega.files
        "file_1" =
        some { user_id := some "alice", filename := "0_report.txt", size := 3,
               folder_id := some "folder_0",
               file_path := "./mega_storage/heal_ai_user_alice/file_1_0_report.txt",
               access_count := 0 } from rfl]
    simp⟩

/-- C7 (amended): when the metadata-store create step fails after the
object-store put has succeeded, the orchestrator reports the original
failure (500, `Failed to store file metadata`) to the caller and leaves
the metadata store untouched, but it performs no compensating object-store
remove: the just-written blob — the encryption of the uploaded content
under the unchanged process key — remains in the object store, orphaned. -/
theorem C7_amended_no_compensating_remove (cfg : Config) (fm : FMState)
    (f : UploadFile) (u : String) (v : Nat × String)
    (hval : SecureFileManager.validate_file cfg (some f) = .ok v)
    (hwf : MegaWf fm.mega) :
    ∃ (fm' : FMState) (mid : String) (minfo : MegaFileInfo),
      SecureFileManager.upload_file cfg fm (some f) u false =
        (.error ("Failed to store file metadata", 500), fm') ∧
      fm'.db = fm.db ∧
      lookupA fm'.mega.files mid = some minfo ∧
      lookupA fm'.mega.storage minfo.file_path =
        some (fernetEncrypt fm.mega.key f.content) := by
  obtain ⟨hne, hv⟩ := validate_file_ok_facts cfg f v hval
  rcases hcf : MegaWrapper.create_user_folder fm.mega u with ⟨uf, mega₁⟩
  obtain ⟨folder, hfolder, huid, hfiles, hstorage, hkey⟩ :=
    create_user_folder_spec fm.mega u hwf uf mega₁ hcf
  obtain ⟨mega₂, minfo, hup, hfl, huser, hblob, hkey'⟩ :=
    upload_into_folder_spec mega₁ f.content uf
      (toString fm.fresh ++ "_" ++ f.filename) folder hne hfolder
  refine ⟨{ fm with mega := mega₂, fresh := fm.fresh + 1 },
    "file_" ++ toString mega₁.fresh, minfo, ?_, rfl, hfl, ?_⟩
  · simp only [SecureFileManager.upload_file, hval, hcf, hup, Bool.false_eq_true,
      if_false]
  · rw [hblob, hkey]

/-- Witness for C7 (amended): the concrete run from the empty deployment. -/
theorem C7_amended_witness :
    ∃ (fm' : FMState) (mid : String) (minfo : MegaFileInfo),
      SecureFileManager.upload_file {} fmInit (some fileA) "alice" false =
        (.error ("Failed to store file metadata", 500), fm') ∧
      fm'.db = fmInit.db ∧
      lookupA fm'.mega.files mid = some minfo ∧
      lookupA fm'.mega.storage minfo.file_path =
        some (fernetEncrypt fmInit.mega.key fileA.content) :=
  C7_amended_no_compensating_remove {} fmInit fileA "alice" (3, "txt") (by rfl)
    ⟨by simp [fmInit], by intro p hp; simp [fmInit] at hp⟩

end SecureStorage
